import Mathlib

/-!
TaskCanvas placement logic (ToDoListApp, canvas variant).

A shallow embedding of the geometry and placement code of
`ToDoListApp/src/components/ToDoApp.jsx`:
`clamp`, `rectsOverlap`, `findFreePosition`, `commitMove`, `handleAddTask`,
`handleDeleteTask` and `toggleComplete`, and of the list reordering of
`src/App.jsx` (`handleDragEnd`) and `src/components/ToDoApp.jsx` (`handleDragOver`).

Pixel coordinates and sizes are integers (`Int`).  The component state that
the closures read (`tasks`, and the canvas `clientWidth` / `clientHeight`
bound to `cw` / `ch`) is passed explicitly.
-/

namespace ToDoListApp

/-! ## Data model -/

/-- Priority of a task: `"low" | "medium" | "high"`. -/
inductive Priority where
  | low
  | medium
  | high
deriving DecidableEq

/-- Category of a task: `"work" | "personal" | "school"`. -/
inductive Category where
  | work
  | personal
  | school
deriving DecidableEq

/-- A task card of the canvas board, with the fields `handleAddTask` creates. -/
structure Task where
  id : String
  text : String
  x : Int
  y : Int
  w : Int
  h : Int
  priority : Priority
  category : Category
  completed : Bool
  dueDate : Option String
deriving DecidableEq

/-- A rectangle literal `{ x, y, w, h }`. -/
structure Rect where
  x : Int
  y : Int
  w : Int
  h : Int
deriving DecidableEq

/-! ## Helpers of the component -/

/-- The helper `clamp = (val, min, max) => Math.max(min, Math.min(max, val))`. -/
def clamp (val lo hi : Int) : Int :=
  max lo (min hi val)

/-- The helper
`rectsOverlap = (a, b) => !(a.x + a.w <= b.x || b.x + b.w <= a.x || a.y + a.h <= b.y || b.y + b.h <= a.y)`.
The sums are integer sums.  The code adds double-precision numbers, which is the same sum as
long as operands and result are integers of magnitude at most `2^53`; beyond that the code's
sum is rounded (`2^53 + 1` gives `2^53`) and this definition no longer describes it. -/
def rectsOverlap (a b : Rect) : Bool :=
  !(decide (a.x + a.w ≤ b.x) || decide (b.x + b.w ≤ a.x)
    || decide (a.y + a.h ≤ b.y) || decide (b.y + b.h ≤ a.y))

/-- The JavaScript expression `v || d` on numbers: `0` is falsy, so it yields `d`. -/
def orDefault (v d : Int) : Int :=
  if v = 0 then d else v

/-- The rectangle `{ x: t.x, y: t.y, w: t.w || 240, h: t.h || 130 }` of an existing task. -/
def taskRect (t : Task) : Rect :=
  { x := t.x, y := t.y, w := orDefault t.w 240, h := orDefault t.h 130 }

/-- Values of the loop variable of `for (let v = lo; v <= hi; v += step)`, at most `fuel` rounds. -/
def forRangeAux (step hi : Int) : Nat → Int → List Int
  | 0, _ => []
  | fuel + 1, v => if v ≤ hi then v :: forRangeAux step hi fuel (v + step) else []

/-- Values taken, in order, by the loop variable of `for (let v = lo; v <= hi; v += step)`.
The fuel `hi - lo + 1` covers every round as soon as `step ≥ 1`
(see `mem_forRange` below). -/
def forRange (lo step hi : Int) : List Int :=
  forRangeAux step hi (hi - lo + 1).toNat lo

/-! ## findFreePosition -/

/-- The test `tasks.some((t) => rectsOverlap(candidate, {...}))` of `findFreePosition`
for the candidate `{ x, y, w, h }`. -/
def overlapsAny (tasks : List Task) (w h x y : Int) : Bool :=
  tasks.any fun t => rectsOverlap { x := x, y := y, w := w, h := h } (taskRect t)

/-- The two nested loops of `findFreePosition` (step 24, rows outer, columns inner):
the first candidate without overlap, or `none` when the loops run to their end. -/
def gridScan (tasks : List Task) (w h cw ch : Int) : Option (Int × Int) :=
  (forRange 12 24 (ch - h)).findSome? fun y =>
    (forRange 12 24 (cw - w)).findSome? fun x =>
      if overlapsAny tasks w h x y then none else some (x, y)

/-- The fallback `{ x: clamp(cw - w - 12, 12, cw - w), y: clamp(ch - h - 12, 12, ch - h) }`. -/
def fallbackPosition (w h cw ch : Int) : Int × Int :=
  (clamp (cw - w - 12) 12 (cw - w), clamp (ch - h - 12) 12 (ch - h))

/-- The function `findFreePosition(w, h)`: the grid scan, then the fallback. -/
def findFreePosition (tasks : List Task) (w h cw ch : Int) : Int × Int :=
  match gridScan tasks w h cw ch with
  | some p => p
  | none => fallbackPosition w h cw ch

/-! ## commitMove -/

/-- The closure `isOverlap = (X, Y) => tasks.some((t) => t.id !== id && rectsOverlap(...))`. -/
def isOverlap (tasks : List Task) (id : String) (w h X Y : Int) : Bool :=
  tasks.any fun t =>
    decide (t.id ≠ id) && rectsOverlap { x := X, y := Y, w := w, h := h } (taskRect t)

/-- The candidate `(tx, ty)` tested for the offset `(dx, dy)` from the base `(nx, ny)`. -/
def ringCandidate (w h cw ch nx ny dx dy : Int) : Int × Int :=
  (clamp (nx + dx) 0 (cw - w), clamp (ny + dy) 0 (ch - h))

/-- The labelled loop `outer:` of `commitMove` (step 12, `radius < 400`, then `dx`, then
`dy`): the first candidate that does not overlap, or `none` when the loops run to their end. -/
def ringSearch (tasks : List Task) (id : String) (w h cw ch nx ny : Int) : Option (Int × Int) :=
  (forRange 12 12 399).findSome? fun radius =>
    (forRange (-radius) 12 radius).findSome? fun dx =>
      (forRange (-radius) 12 radius).findSome? fun dy =>
        let c := ringCandidate w h cw ch nx ny dx dy
        if isOverlap tasks id w h c.1 c.2 then none else some c

/-- The position `(nx, ny)` that `commitMove` has computed when it calls `setTasks`. -/
def commitMovePos (tasks : List Task) (id : String) (x y w h cw ch : Int) : Int × Int :=
  let nx := clamp x 0 (cw - w)
  let ny := clamp y 0 (ch - h)
  if isOverlap tasks id w h nx ny then
    match ringSearch tasks id w h cw ch nx ny with
    | some p => p
    | none => (nx, ny)
  else (nx, ny)

/-- The function `commitMove(id, x, y, w, h)`: the new task list
`p.map((t) => (t.id === id ? { ...t, x: nx, y: ny } : t))`.  The list `p` handed to the
updater is the list `tasks` the closure read: a commit works on the latest snapshot. -/
def commitMove (tasks : List Task) (id : String) (x y w h cw ch : Int) : List Task :=
  let p := commitMovePos tasks id x y w h cw ch
  tasks.map fun t => if t.id = id then { t with x := p.1, y := p.2 } else t

/-! ## Sample data -/

/-- A 240×130 task at `(x, y)`. -/
def sampleTask (id : String) (x y : Int) : Task :=
  { id := id, text := "t", x := x, y := y, w := 240, h := 130,
    priority := Priority.low, category := Category.personal,
    completed := false, dueDate := none }

/-- The area of the intersection of the regions `[a.x, a.x+a.w] × [a.y, a.y+a.h]` and
`[b.x, b.x+b.w] × [b.y, b.y+b.h]`, as the specification words the overlap test: the
intersection is the box between the larger of the two left (top) edges and the smaller of the
two right (bottom) edges, and is empty, of area `0`, when those cross. -/
def intersectionArea (a b : Rect) : Int :=
  max 0 (min (a.x + a.w) (b.x + b.w) - max a.x b.x)
    * max 0 (min (a.y + a.h) (b.y + b.h) - max a.y b.y)

/-- The rectangles whose four fields are integers of magnitude at most `2^52`
(`4503599627370496`).  Every sum `rectsOverlap` forms on them has magnitude at most `2^53`, so
the code's double-precision addition computes it exactly and `rectsOverlap` above is the
code's test. -/
@[reducible] def exactRect (r : Rect) : Prop :=
  (-4503599627370496 ≤ r.x ∧ r.x ≤ 4503599627370496) ∧
    (-4503599627370496 ≤ r.y ∧ r.y ≤ 4503599627370496) ∧
    (-4503599627370496 ≤ r.w ∧ r.w ≤ 4503599627370496) ∧
    (-4503599627370496 ≤ r.h ∧ r.h ≤ 4503599627370496)

/-! ## Scan order of the collision search, as the specification words it -/

/-- The offsets `(dx, dy)` in the order the specification gives for the collision search:
`radius = 12, 24, ..., 396` (that is `12 * (k + 1)` for `k = 0, ..., 32`), then `dx` ascending
from `-radius` to `radius` in steps of 12 (that is `-radius + 12 * i` for
`i = 0, ..., 2 * (k + 1)`), then `dy` ascending in the same way. -/
def scanOffsets : List (Int × Int) :=
  (List.range 33).flatMap fun k : Nat =>
    (List.range (2 * (k + 1) + 1)).flatMap fun i : Nat =>
      (List.range (2 * (k + 1) + 1)).map fun j : Nat =>
        (-(12 * ((k : Int) + 1)) + 12 * (i : Int), -(12 * ((k : Int) + 1)) + 12 * (j : Int))

/-- The candidates of the collision search in scan order, each
`(clamp(nx + dx, 0, cw - w), clamp(ny + dy, 0, ch - h))` computed from the clamped base. -/
def scanCandidates (w h cw ch nx ny : Int) : List (Int × Int) :=
  scanOffsets.map fun o => (clamp (nx + o.1) 0 (cw - w), clamp (ny + o.2) 0 (ch - h))

/-- The position the specification has `commitMove` accept when the clamped base overlaps: the
first candidate in scan order that overlaps no other task, else the clamped base itself. -/
def firstFreeCandidate (tasks : List Task) (id : String) (w h cw ch nx ny : Int) : Int × Int :=
  ((scanCandidates w h cw ch nx ny).find? fun c => !isOverlap tasks id w h c.1 c.2).getD (nx, ny)

/-! ## Adding, deleting and toggling tasks (canvas variant) -/

/-- The characters `String.prototype.trim` strips: the ECMAScript white space and line
terminator code points. -/
def isJsWhitespace (c : Char) : Bool :=
  [9, 10, 11, 12, 13, 32, 160, 5760, 8232, 8233, 8239, 8287, 12288, 65279].contains c.toNat
    || (decide (8192 ≤ c.toNat) && decide (c.toNat ≤ 8202))

/-- The JavaScript method `s.trim()`: white space removed from both ends. -/
def jsTrim (s : String) : String :=
  String.mk ((s.toList.dropWhile isJsWhitespace).reverse.dropWhile isJsWhitespace).reverse

/-- The function `handleAddTask`, with the component state it reads passed in: the input text
`newTask`, the selected `priority` and `category`, the date field `newDueDate`, the value `now`
that `Date.now()` returns, and the canvas size.  A blank text adds nothing; otherwise a
240×130 task is appended at `findFreePosition(240, 130)` with `id: Date.now().toString()`. -/
def handleAddTask (tasks : List Task) (newTask : String) (priority : Priority)
    (category : Category) (newDueDate : String) (now : Nat) (cw ch : Int) : List Task :=
  if jsTrim newTask = "" then tasks
  else
    let pos := findFreePosition tasks 240 130 cw ch
    tasks ++ [{ id := toString now, text := jsTrim newTask, x := pos.1, y := pos.2,
                w := 240, h := 130, priority := priority, category := category,
                completed := false,
                dueDate := if newDueDate = "" then none else some newDueDate }]

/-- The function `handleDeleteTask = (id) => setTasks((p) => p.filter((t) => t.id !== id))`. -/
def handleDeleteTask (tasks : List Task) (id : String) : List Task :=
  tasks.filter fun t => decide (t.id ≠ id)

/-- The function `toggleComplete`:
`prev.map((t) => (t.id === id ? { ...t, completed: !t.completed } : t))`. -/
def toggleComplete (tasks : List Task) (id : String) : List Task :=
  tasks.map fun t => if t.id = id then { t with completed := !t.completed } else t

/-- One user action on the canvas board, with the values the handler reads at that moment. -/
inductive Op where
  | add (newTask : String) (priority : Priority) (category : Category) (newDueDate : String)
      (now : Nat) (cw ch : Int)
  | delete (id : String)
  | toggle (id : String)
  | move (id : String) (x y w h cw ch : Int)

/-- The task list after one action. -/
def applyOp (tasks : List Task) : Op → List Task
  | Op.add newTask priority category newDueDate now cw ch =>
      handleAddTask tasks newTask priority category newDueDate now cw ch
  | Op.delete id => handleDeleteTask tasks id
  | Op.toggle id => toggleComplete tasks id
  | Op.move id x y w h cw ch => commitMove tasks id x y w h cw ch

/-- The task list reached from the empty list (`useState([])`) by a sequence of actions. -/
def runOps (ops : List Op) : List Task :=
  ops.foldl applyOp []

/-- The values `Date.now()` returned during a sequence of actions, in order: one per
`handleAddTask` call that got past the blank-text guard. -/
def clockReads : List Op → List Nat
  | [] => []
  | Op.add newTask _ _ _ now _ _ :: rest =>
      if jsTrim newTask = "" then clockReads rest else now :: clockReads rest
  | Op.delete _ :: rest => clockReads rest
  | Op.toggle _ :: rest => clockReads rest
  | Op.move _ _ _ _ _ _ _ :: rest => clockReads rest

/-- The number a list of decimal digit characters denotes (most significant digit first). -/
def digitsValue (l : List Char) : Nat :=
  l.foldl (fun acc c => 10 * acc + (c.toNat - 48)) 0

/-! ## List reordering (drag-and-drop list variant and filterable list variant) -/

/-- The array method `arr.splice(start, deleteCount, ...items)` for a non-negative `start`:
the removed elements, and the array afterwards. -/
def splice {α : Type} (arr : List α) (start deleteCount : Nat) (items : List α) :
    List α × List α :=
  let s := min start arr.length
  ((arr.drop s).take deleteCount, arr.take s ++ items ++ (arr.drop s).drop deleteCount)

/-- The function `handleDragEnd(result)` of `src/App.jsx`, with `result.source.index` and the
index of `result.destination` (`none` when there is no destination).  The type `α` is the type
of array elements, `undefined` the value a destructuring `[movedTask]` of an empty array
yields. -/
def handleDragEnd {α : Type} (undefined : α) (tasks : List α) (source : Nat)
    (destination : Option Nat) : List α :=
  match destination with
  | none => tasks
  | some d =>
    let removed := splice tasks source 1 []
    let movedTask := removed.1.headD undefined
    (splice removed.2 d 0 [movedTask]).2

/-- The function `handleDragOver(e, index)` of `src/components/ToDoApp.jsx` on the state
`(tasks, draggedIndex)`: the new `(tasks, draggedIndex)`. -/
def handleDragOver {α : Type} (undefined : α) (tasks : List α) (draggedIndex : Option Nat)
    (index : Nat) : List α × Option Nat :=
  match draggedIndex with
  | none => (tasks, none)
  | some s =>
    if s = index then (tasks, some s)
    else
      let removed := splice tasks s 1 []
      let moved := removed.1.headD undefined
      ((splice removed.2 index 0 [moved]).2, some index)

/-! ## Loop ranges -/

theorem mem_forRangeAux (step hi : Int) (hstep : 1 ≤ step) :
    ∀ (fuel : Nat) (lo v : Int),
      v ∈ forRangeAux step hi fuel lo ↔ ∃ k : Nat, k < fuel ∧ v = lo + step * k ∧ v ≤ hi := by
  intro fuel
  induction fuel with
  | zero => intro lo v; simp [forRangeAux]
  | succ n ih =>
    intro lo v
    unfold forRangeAux
    by_cases hlo : lo ≤ hi
    · rw [if_pos hlo, List.mem_cons, ih]
      constructor
      · rintro (rfl | ⟨k, hk, rfl, hle⟩)
        · exact ⟨0, by omega, by simp, hlo⟩
        · exact ⟨k + 1, by omega, by push_cast; ring, hle⟩
      · rintro ⟨k, hk, rfl, hle⟩
        cases k with
        | zero => left; simp
        | succ k => right; exact ⟨k, by omega, by push_cast; ring, hle⟩
    · rw [if_neg hlo]
      simp only [List.not_mem_nil, false_iff, not_exists, not_and, not_le]
      intro k _ hv
      have : 0 ≤ step * (k : Int) := by positivity
      omega

/-- The loop `for (let v = lo; v <= hi; v += step)` with `step ≥ 1` visits exactly the values
`lo + step * k` that are at most `hi`: the fuel of `forRange` never cuts the loop short. -/
theorem mem_forRange (lo step hi v : Int) (hstep : 1 ≤ step) :
    v ∈ forRange lo step hi ↔ ∃ k : Nat, v = lo + step * k ∧ v ≤ hi := by
  unfold forRange
  rw [mem_forRangeAux step hi hstep]
  constructor
  · rintro ⟨k, _, hv, hle⟩
    exact ⟨k, hv, hle⟩
  · rintro ⟨k, hv, hle⟩
    refine ⟨k, ?_, hv, hle⟩
    have h1 : (k : Int) ≤ step * k := by
      have : (0 : Int) ≤ k := by positivity
      nlinarith
    omega

/-! ## Helper lemmas -/

theorem clamp_nonneg_lo (val lo hi : Int) : lo ≤ clamp val lo hi := by
  unfold clamp
  exact le_max_left _ _

theorem clamp_le_max (val lo hi : Int) : clamp val lo hi ≤ max lo hi := by
  unfold clamp
  exact max_le_max le_rfl (min_le_left _ _)

theorem ringSearch_some (tasks : List Task) (id : String) (w h cw ch nx ny : Int)
    (p : Int × Int) (hp : ringSearch tasks id w h cw ch nx ny = some p) :
    isOverlap tasks id w h p.1 p.2 = false ∧
      ∃ radius ∈ forRange 12 12 399, ∃ dx ∈ forRange (-radius) 12 radius,
        ∃ dy ∈ forRange (-radius) 12 radius, p = ringCandidate w h cw ch nx ny dx dy := by
  unfold ringSearch at hp
  obtain ⟨radius, hr, hp⟩ := List.exists_of_findSome?_eq_some hp
  obtain ⟨dx, hdx, hp⟩ := List.exists_of_findSome?_eq_some hp
  obtain ⟨dy, hdy, hp⟩ := List.exists_of_findSome?_eq_some hp
  simp only at hp
  split at hp
  · exact absurd hp (by simp)
  · rename_i hno
    have hpe : ringCandidate w h cw ch nx ny dx dy = p := by simpa using hp
    subst hpe
    exact ⟨by simpa using hno, radius, hr, dx, hdx, dy, hdy, rfl⟩

theorem ringSearch_none (tasks : List Task) (id : String) (w h cw ch nx ny : Int)
    (hn : ringSearch tasks id w h cw ch nx ny = none) :
    ∀ radius ∈ forRange 12 12 399, ∀ dx ∈ forRange (-radius) 12 radius,
      ∀ dy ∈ forRange (-radius) 12 radius,
        isOverlap tasks id w h (ringCandidate w h cw ch nx ny dx dy).1
          (ringCandidate w h cw ch nx ny dx dy).2 = true := by
  unfold ringSearch at hn
  intro radius hr dx hdx dy hdy
  rw [List.findSome?_eq_none_iff] at hn
  have h1 := hn radius hr
  rw [List.findSome?_eq_none_iff] at h1
  have h2 := h1 dx hdx
  rw [List.findSome?_eq_none_iff] at h2
  have h3 := h2 dy hdy
  simp only at h3
  by_contra hc
  rw [if_neg hc] at h3
  exact absurd h3 (by simp)

theorem commitMovePos_bounds (tasks : List Task) (id : String) (x y w h cw ch : Int) :
    0 ≤ (commitMovePos tasks id x y w h cw ch).1 ∧
      (commitMovePos tasks id x y w h cw ch).1 ≤ max 0 (cw - w) ∧
      0 ≤ (commitMovePos tasks id x y w h cw ch).2 ∧
      (commitMovePos tasks id x y w h cw ch).2 ≤ max 0 (ch - h) := by
  have base : 0 ≤ clamp x 0 (cw - w) ∧ clamp x 0 (cw - w) ≤ max 0 (cw - w) ∧
      0 ≤ clamp y 0 (ch - h) ∧ clamp y 0 (ch - h) ≤ max 0 (ch - h) :=
    ⟨clamp_nonneg_lo _ _ _, clamp_le_max _ _ _, clamp_nonneg_lo _ _ _, clamp_le_max _ _ _⟩
  unfold commitMovePos
  simp only
  split
  · split
    · rename_i p hp
      obtain ⟨_, radius, _, dx, _, dy, _, rfl⟩ := ringSearch_some _ _ _ _ _ _ _ _ _ hp
      exact ⟨clamp_nonneg_lo _ _ _, clamp_le_max _ _ _, clamp_nonneg_lo _ _ _,
        clamp_le_max _ _ _⟩
    · exact base
  · exact base

theorem commitMove_mem_pos (tasks : List Task) (id : String) (x y w h cw ch : Int)
    (t : Task) (ht : t ∈ commitMove tasks id x y w h cw ch) (hid : t.id = id) :
    (t.x, t.y) = commitMovePos tasks id x y w h cw ch := by
  unfold commitMove at ht
  simp only [List.mem_map] at ht
  obtain ⟨s, _, hs⟩ := ht
  by_cases hsid : s.id = id
  · rw [if_pos hsid] at hs
    subst hs
    rfl
  · rw [if_neg hsid] at hs
    subst hs
    exact absurd hid hsid

theorem isOverlap_commitMove (tasks : List Task) (id : String) (x y w h cw ch : Int)
    (w2 h2 X Y : Int) :
    isOverlap (commitMove tasks id x y w h cw ch) id w2 h2 X Y
      = isOverlap tasks id w2 h2 X Y := by
  unfold isOverlap commitMove
  simp only [List.any_map]
  congr 1
  funext t
  by_cases hid : t.id = id
  · simp [hid]
  · simp [hid]

/-! ## commitMove: bounds, search, frame -/

/-- C1 (as stated, refuted): on a 200×600 canvas a 240×130 card dragged to `(50, 50)` is
stored at `x = 0`, which is not at most `cw - w = -40`. -/
theorem commitMove_within_canvas_counterexample :
    commitMove [sampleTask "1" 0 0] "1" 50 50 240 130 200 600 = [sampleTask "1" 0 50] ∧
      ¬ ((sampleTask "1" 0 50).x ≤ 200 - 240) := by
  decide

/-- C1 (amended): the position `commitMove` stores for the moved task satisfies
`0 ≤ x ≤ max 0 (cw - w)` and `0 ≤ y ≤ max 0 (ch - h)`; so `x ≤ cw - w` whenever the card is
not wider than the canvas, and `y ≤ ch - h` whenever it is not taller. -/
theorem commitMove_within_canvas (tasks : List Task) (id : String) (x y w h cw ch : Int)
    (t : Task) (ht : t ∈ commitMove tasks id x y w h cw ch) (hid : t.id = id) :
    (0 ≤ t.x ∧ t.x ≤ max 0 (cw - w) ∧ 0 ≤ t.y ∧ t.y ≤ max 0 (ch - h)) ∧
      (w ≤ cw → t.x ≤ cw - w) ∧ (h ≤ ch → t.y ≤ ch - h) := by
  have hpos := commitMove_mem_pos tasks id x y w h cw ch t ht hid
  have hb := commitMovePos_bounds tasks id x y w h cw ch
  rw [← hpos] at hb
  simp only at hb
  obtain ⟨h1, h2, h3, h4⟩ := hb
  refine ⟨⟨h1, h2, h3, h4⟩, ?_, ?_⟩
  · intro hw
    rw [max_eq_right (by omega)] at h2
    exact h2
  · intro hh
    rw [max_eq_right (by omega)] at h4
    exact h4

/-- C1 at a concrete drag: a card dropped at `(900, 50)` on an 800×600 canvas lands at `(560, 50)`. -/
theorem commitMove_within_canvas_witness :
    sampleTask "1" 560 50 ∈ commitMove [sampleTask "1" 0 0] "1" 900 50 240 130 800 600 ∧
      ((0 ≤ (sampleTask "1" 560 50).x ∧ (sampleTask "1" 560 50).x ≤ max 0 (800 - 240) ∧
          0 ≤ (sampleTask "1" 560 50).y ∧ (sampleTask "1" 560 50).y ≤ max 0 (600 - 130)) ∧
        ((240 : Int) ≤ 800 → (sampleTask "1" 560 50).x ≤ 800 - 240) ∧
        ((130 : Int) ≤ 600 → (sampleTask "1" 560 50).y ≤ 600 - 130)) :=
  ⟨by decide,
    commitMove_within_canvas [sampleTask "1" 0 0] "1" 900 50 240 130 800 600
      (sampleTask "1" 560 50) (by decide) rfl⟩

/-- C2: when the clamped proposed position overlaps another task and some offset `(dx, dy)`,
both multiples of 12 with `max |dx| |dy| ≤ 396`, leads (after clamping) to a rectangle that
overlaps no task other than the moved one, the position `commitMove` stores overlaps no task
other than the moved one, in the list read and in the list written. -/
theorem commitMove_finds_free_slot (tasks : List Task) (id : String) (x y w h cw ch : Int)
    (dx dy : Int)
    (hov : isOverlap tasks id w h (clamp x 0 (cw - w)) (clamp y 0 (ch - h)) = true)
    (hdx : 12 ∣ dx) (hdy : 12 ∣ dy) (hrad : max |dx| |dy| ≤ 396)
    (hfree : isOverlap tasks id w h (clamp (clamp x 0 (cw - w) + dx) 0 (cw - w))
      (clamp (clamp y 0 (ch - h) + dy) 0 (ch - h)) = false)
    (t : Task) (ht : t ∈ commitMove tasks id x y w h cw ch) (hid : t.id = id) :
    isOverlap tasks id w h t.x t.y = false ∧
      isOverlap (commitMove tasks id x y w h cw ch) id w h t.x t.y = false := by
  have hpos := commitMove_mem_pos tasks id x y w h cw ch t ht hid
  have key : isOverlap tasks id w h (commitMovePos tasks id x y w h cw ch).1
      (commitMovePos tasks id x y w h cw ch).2 = false := by
    unfold commitMovePos
    simp only [hov, if_true]
    split
    · rename_i p hp
      exact (ringSearch_some _ _ _ _ _ _ _ _ _ hp).1
    · rename_i hn
      exfalso
      have hall := ringSearch_none _ _ _ _ _ _ _ _ hn
      have hx : |dx| ≤ 396 := le_trans (le_max_left _ _) hrad
      have hy : |dy| ≤ 396 := le_trans (le_max_right _ _) hrad
      rw [abs_le] at hx hy
      obtain ⟨a, rfl⟩ := hdx
      obtain ⟨b, rfl⟩ := hdy
      have h396 : (396 : Int) ∈ forRange 12 12 399 := by decide
      have hmx : 12 * a ∈ forRange (-396) 12 396 := by
        rw [mem_forRange _ _ _ _ (by norm_num)]
        exact ⟨(a + 33).toNat, by omega, by omega⟩
      have hmy : 12 * b ∈ forRange (-396) 12 396 := by
        rw [mem_forRange _ _ _ _ (by norm_num)]
        exact ⟨(b + 33).toNat, by omega, by omega⟩
      have hc := hall 396 h396 (12 * a) hmx (12 * b) hmy
      unfold ringCandidate at hc
      simp only at hc
      rw [hfree] at hc
      exact absurd hc (by simp)
  rw [← hpos] at key
  simp only at key
  exact ⟨key, by rw [isOverlap_commitMove]; exact key⟩

/-- C2 at a concrete drag: task `b` dropped exactly onto task `a` ends at the free slot `(0, 232)`. -/
theorem commitMove_finds_free_slot_witness :
    isOverlap [sampleTask "a" 100 100, sampleTask "b" 400 300] "b" 240 130
        (clamp 100 0 (800 - 240)) (clamp 100 0 (600 - 130)) = true ∧
      isOverlap [sampleTask "a" 100 100, sampleTask "b" 400 300] "b" 240 130
        (clamp (clamp 100 0 (800 - 240) + 240) 0 (800 - 240))
        (clamp (clamp 100 0 (600 - 130) + 0) 0 (600 - 130)) = false ∧
      sampleTask "b" 0 232 ∈
        commitMove [sampleTask "a" 100 100, sampleTask "b" 400 300] "b" 100 100 240 130 800 600 ∧
      isOverlap [sampleTask "a" 100 100, sampleTask "b" 400 300] "b" 240 130
        (sampleTask "b" 0 232).x (sampleTask "b" 0 232).y = false ∧
      isOverlap
        (commitMove [sampleTask "a" 100 100, sampleTask "b" 400 300] "b" 100 100 240 130 800 600)
        "b" 240 130 (sampleTask "b" 0 232).x (sampleTask "b" 0 232).y = false :=
  ⟨by decide, by decide, by decide,
    commitMove_finds_free_slot [sampleTask "a" 100 100, sampleTask "b" 400 300] "b"
      100 100 240 130 800 600 240 0 (by decide) (by decide) (by decide) (by decide) (by decide)
      (sampleTask "b" 0 232) (by decide) rfl⟩

/-- C3: when the rectangle at the clamped proposed position overlaps no task other than the
moved one, `commitMove` stores exactly that clamped position. -/
theorem commitMove_keeps_free_position (tasks : List Task) (id : String)
    (x y w h cw ch : Int)
    (hfree : isOverlap tasks id w h (clamp x 0 (cw - w)) (clamp y 0 (ch - h)) = false) :
    commitMovePos tasks id x y w h cw ch = (clamp x 0 (cw - w), clamp y 0 (ch - h)) ∧
      ∀ t ∈ commitMove tasks id x y w h cw ch, t.id = id →
        t.x = clamp x 0 (cw - w) ∧ t.y = clamp y 0 (ch - h) := by
  have hp : commitMovePos tasks id x y w h cw ch
      = (clamp x 0 (cw - w), clamp y 0 (ch - h)) := by
    unfold commitMovePos
    simp [hfree]
  refine ⟨hp, ?_⟩
  intro t ht hid
  have hpos := commitMove_mem_pos tasks id x y w h cw ch t ht hid
  rw [hp] at hpos
  exact ⟨congrArg Prod.fst hpos, congrArg Prod.snd hpos⟩

/-- C3 at a concrete drag: a drop at `(900, -7)` that hits nothing is stored clamped. -/
theorem commitMove_keeps_free_position_witness :
    isOverlap [sampleTask "a" 100 100, sampleTask "b" 400 300] "b" 240 130
        (clamp 900 0 (800 - 240)) (clamp (-7) 0 (600 - 130)) = false ∧
      commitMovePos [sampleTask "a" 100 100, sampleTask "b" 400 300] "b" 900 (-7) 240 130 800 600
        = (clamp 900 0 (800 - 240), clamp (-7) 0 (600 - 130)) ∧
      ∀ t ∈ commitMove [sampleTask "a" 100 100, sampleTask "b" 400 300] "b"
          900 (-7) 240 130 800 600,
        t.id = "b" → t.x = clamp 900 0 (800 - 240) ∧ t.y = clamp (-7) 0 (600 - 130) :=
  ⟨by decide,
    commitMove_keeps_free_position [sampleTask "a" 100 100, sampleTask "b" 400 300] "b"
      900 (-7) 240 130 800 600 (by decide)⟩

/-- C5: `commitMove` keeps the length and order of the list; at every index the task keeps its
id, text, w, h, priority, category, completed and dueDate, a task with a different id is
unchanged, and a task with the given id gets the computed position; when no task has the given
id the list is unchanged. -/
theorem commitMove_frame (tasks : List Task) (id : String) (x y w h cw ch : Int) :
    (commitMove tasks id x y w h cw ch).length = tasks.length ∧
      (∀ (i : Nat) (t : Task), tasks[i]? = some t →
        ∃ t2 : Task, (commitMove tasks id x y w h cw ch)[i]? = some t2 ∧
          t2.id = t.id ∧ t2.text = t.text ∧ t2.w = t.w ∧ t2.h = t.h ∧
          t2.priority = t.priority ∧ t2.category = t.category ∧
          t2.completed = t.completed ∧ t2.dueDate = t.dueDate ∧
          (t.id ≠ id → t2 = t) ∧
          (t.id = id → (t2.x, t2.y) = commitMovePos tasks id x y w h cw ch)) ∧
      ((∀ t ∈ tasks, t.id ≠ id) → commitMove tasks id x y w h cw ch = tasks) := by
  refine ⟨by simp [commitMove], ?_, ?_⟩
  · intro i t hi
    unfold commitMove
    simp only [List.getElem?_map, hi, Option.map_some']
    by_cases hid : t.id = id
    · exact ⟨{ t with x := (commitMovePos tasks id x y w h cw ch).1,
                       y := (commitMovePos tasks id x y w h cw ch).2 },
        by rw [if_pos hid], rfl, rfl, rfl, rfl, rfl, rfl, rfl, rfl,
        fun hne => absurd hid hne, fun _ => rfl⟩
    · exact ⟨t, by rw [if_neg hid], rfl, rfl, rfl, rfl, rfl, rfl, rfl, rfl,
        fun _ => rfl, fun he => absurd he hid⟩
  · intro hall
    unfold commitMove
    simp only
    conv_rhs => rw [← List.map_id tasks]
    apply List.map_congr_left
    intro t ht
    rw [if_neg (hall t ht)]
    rfl

/-- C5 at concrete lists: moving `b` rewrites only its position, moving an absent id changes nothing. -/
theorem commitMove_frame_witness :
    (commitMove [sampleTask "a" 100 100, sampleTask "b" 400 300] "b"
        100 100 240 130 800 600).length
      = [sampleTask "a" 100 100, sampleTask "b" 400 300].length ∧
    commitMove [sampleTask "a" 100 100, sampleTask "b" 400 300] "b" 100 100 240 130 800 600
      = [sampleTask "a" 100 100, sampleTask "b" 0 232] ∧
    commitMove [sampleTask "a" 100 100, sampleTask "b" 400 300] "c" 100 100 240 130 800 600
      = [sampleTask "a" 100 100, sampleTask "b" 400 300] :=
  ⟨(commitMove_frame [sampleTask "a" 100 100, sampleTask "b" 400 300] "b"
      100 100 240 130 800 600).1,
    by decide,
    (commitMove_frame [sampleTask "a" 100 100, sampleTask "b" 400 300] "c"
      100 100 240 130 800 600).2.2 (by decide)⟩

/-! ## findFreePosition -/

theorem gridScan_some (tasks : List Task) (w h cw ch : Int) (p : Int × Int)
    (hp : gridScan tasks w h cw ch = some p) :
    overlapsAny tasks w h p.1 p.2 = false ∧
      p.2 ∈ forRange 12 24 (ch - h) ∧ p.1 ∈ forRange 12 24 (cw - w) := by
  unfold gridScan at hp
  obtain ⟨y, hy, hp⟩ := List.exists_of_findSome?_eq_some hp
  obtain ⟨x, hx, hp⟩ := List.exists_of_findSome?_eq_some hp
  split at hp
  · exact absurd hp (by simp)
  · rename_i hno
    have hpe : (x, y) = p := by simpa using hp
    subst hpe
    exact ⟨by simpa using hno, hy, hx⟩

theorem gridScan_none_of_covered (tasks : List Task) (w h cw ch : Int)
    (hall : ∀ i j : Nat, 12 + 24 * (i : Int) ≤ cw - w → 12 + 24 * (j : Int) ≤ ch - h →
      overlapsAny tasks w h (12 + 24 * i) (12 + 24 * j) = true) :
    gridScan tasks w h cw ch = none := by
  unfold gridScan
  rw [List.findSome?_eq_none_iff]
  intro y hy
  rw [List.findSome?_eq_none_iff]
  intro x hx
  rw [mem_forRange _ _ _ _ (by norm_num)] at hx hy
  obtain ⟨i, rfl, hi⟩ := hx
  obtain ⟨j, rfl, hj⟩ := hy
  rw [hall i j hi hj]
  rfl

/-- C4: whenever the grid scan of `findFreePosition` finds a position (the fallback is not
taken), `findFreePosition` returns it and the `w`-by-`h` rectangle there overlaps the rectangle
of no existing task (width `t.w || 240`, height `t.h || 130`). -/
theorem findFreePosition_grid_no_overlap (tasks : List Task) (w h cw ch : Int)
    (p : Int × Int) (hp : gridScan tasks w h cw ch = some p) :
    findFreePosition tasks w h cw ch = p ∧
      ∀ t ∈ tasks, rectsOverlap { x := p.1, y := p.2, w := w, h := h }
        { x := t.x, y := t.y, w := orDefault t.w 240, h := orDefault t.h 130 } = false := by
  refine ⟨by unfold findFreePosition; rw [hp], ?_⟩
  have hno := (gridScan_some tasks w h cw ch p hp).1
  unfold overlapsAny at hno
  rw [List.any_eq_false] at hno
  intro t ht
  have := hno t ht
  simpa [taskRect] using this

/-- C4 at a concrete board: two cards in the first row, the third is placed at `(516, 12)`. -/
theorem findFreePosition_grid_no_overlap_witness :
    gridScan [sampleTask "a" 12 12, sampleTask "b" 276 12] 240 130 800 600 = some (516, 12) ∧
      findFreePosition [sampleTask "a" 12 12, sampleTask "b" 276 12] 240 130 800 600
        = (516, 12) ∧
      ∀ t ∈ [sampleTask "a" 12 12, sampleTask "b" 276 12],
        rectsOverlap { x := 516, y := 12, w := 240, h := 130 }
          { x := t.x, y := t.y, w := orDefault t.w 240, h := orDefault t.h 130 } = false :=
  ⟨by decide,
    findFreePosition_grid_no_overlap [sampleTask "a" 12 12, sampleTask "b" 276 12]
      240 130 800 600 (516, 12) (by decide)⟩

theorem forRange_cons (lo step hi : Int) (hle : lo ≤ hi) :
    ∃ tl, forRange lo step hi = lo :: tl := by
  unfold forRange
  obtain ⟨n, hn⟩ : ∃ n, (hi - lo + 1).toNat = n + 1 :=
    Nat.exists_eq_succ_of_ne_zero (by omega)
  rw [hn]
  unfold forRangeAux
  rw [if_pos hle]
  exact ⟨_, rfl⟩

theorem overlapsAny_congr (tasks tasks2 : List Task) (w h x y : Int)
    (hr : tasks.map taskRect = tasks2.map taskRect) :
    overlapsAny tasks w h x y = overlapsAny tasks2 w h x y := by
  unfold overlapsAny
  have e : ∀ l : List Task,
      (l.any fun t => rectsOverlap { x := x, y := y, w := w, h := h } (taskRect t))
        = (l.map taskRect).any fun r => rectsOverlap { x := x, y := y, w := w, h := h } r := by
    intro l
    induction l with
    | nil => rfl
    | cons t l ih => simp only [List.any_cons, List.map_cons, ih]
  rw [e tasks, e tasks2, hr]

theorem findFreePosition_congr (tasks tasks2 : List Task) (w h cw ch : Int)
    (hr : tasks.map taskRect = tasks2.map taskRect) :
    findFreePosition tasks w h cw ch = findFreePosition tasks2 w h cw ch := by
  unfold findFreePosition gridScan
  simp only [overlapsAny_congr tasks tasks2 w h _ _ hr]

/-- C8 (as stated, refuted): on an 800×100 canvas the row loop of `findFreePosition` has no
round for a 240×130 card, and the empty list gets the fallback `(548, 12)`, not `(12, 12)`. -/
theorem findFreePosition_empty_counterexample :
    findFreePosition [] 240 130 800 100 = (548, 12) ∧ ((548, 12) : Int × Int) ≠ (12, 12) := by
  decide

/-- C8 (amended): on an empty task list `findFreePosition(w, h)` returns `(12, 12)` whenever
the first grid candidate exists, that is `12 ≤ cw - w` and `12 ≤ ch - h`. -/
theorem findFreePosition_empty (w h cw ch : Int) (hw : 12 ≤ cw - w) (hh : 12 ≤ ch - h) :
    findFreePosition [] w h cw ch = (12, 12) := by
  obtain ⟨tx, hx⟩ := forRange_cons 12 24 (cw - w) hw
  obtain ⟨ty, hy⟩ := forRange_cons 12 24 (ch - h) hh
  unfold findFreePosition gridScan
  rw [hx, hy]
  simp [overlapsAny]

/-- C8 at the scenario of the specification: a 240×130 card on an empty 800×600 canvas. -/
theorem findFreePosition_empty_witness :
    (12 : Int) ≤ 800 - 240 ∧ (12 : Int) ≤ 600 - 130 ∧
      findFreePosition [] 240 130 800 600 = (12, 12) :=
  ⟨by decide, by decide, findFreePosition_empty 240 130 800 600 (by decide) (by decide)⟩

/-- C9 (as stated, refuted): with one 240×130 task at `(12, 12)` on an 800×600 canvas,
`findFreePosition(240, 130)` does not return `(276, 12)`. -/
theorem findFreePosition_second_counterexample :
    findFreePosition [sampleTask "1" 12 12] 240 130 800 600 ≠ (276, 12) := by
  decide

/-- C9 (amended): with exactly one task at `x = 12, y = 12, w = 240, h = 130` on an 800×600
canvas, `findFreePosition(240, 130)` returns `(252, 12)`: the candidate at `x = 252` touches
the right edge of the task without crossing it. -/
theorem findFreePosition_second (id text : String) (priority : Priority)
    (category : Category) (completed : Bool) (dueDate : Option String) :
    findFreePosition
      [{ id := id, text := text, x := 12, y := 12, w := 240, h := 130, priority := priority,
         category := category, completed := completed, dueDate := dueDate }]
      240 130 800 600 = (252, 12) := by
  have hsample : findFreePosition [sampleTask "1" 12 12] 240 130 800 600 = (252, 12) := by
    decide
  rw [← hsample]
  exact findFreePosition_congr _ _ 240 130 800 600 rfl

/-- C10: when every grid candidate `(12 + 24 i, 12 + 24 j)` with `12 + 24 i ≤ cw - w` and
`12 + 24 j ≤ ch - h` overlaps some existing task (in particular when there is no candidate),
`findFreePosition` returns `(clamp(cw - w - 12, 12, cw - w), clamp(ch - h - 12, 12, ch - h))`. -/
theorem findFreePosition_fallback (tasks : List Task) (w h cw ch : Int)
    (hall : ∀ i j : Nat, 12 + 24 * (i : Int) ≤ cw - w → 12 + 24 * (j : Int) ≤ ch - h →
      overlapsAny tasks w h (12 + 24 * i) (12 + 24 * j) = true) :
    findFreePosition tasks w h cw ch
      = (clamp (cw - w - 12) 12 (cw - w), clamp (ch - h - 12) 12 (ch - h)) := by
  unfold findFreePosition
  rw [gridScan_none_of_covered tasks w h cw ch hall]
  rfl

/-- C10 at a concrete board: one task covering the whole 800×600 canvas, fallback `(548, 458)`. -/
theorem findFreePosition_fallback_witness :
    (∀ i j : Nat, 12 + 24 * (i : Int) ≤ 800 - 240 → 12 + 24 * (j : Int) ≤ 600 - 130 →
      overlapsAny [{ sampleTask "a" 0 0 with w := 800, h := 600 }] 240 130
        (12 + 24 * i) (12 + 24 * j) = true) ∧
      findFreePosition [{ sampleTask "a" 0 0 with w := 800, h := 600 }] 240 130 800 600
        = (clamp (800 - 240 - 12) 12 (800 - 240), clamp (600 - 130 - 12) 12 (600 - 130)) ∧
      (clamp (800 - 240 - 12) 12 (800 - 240), clamp (600 - 130 - 12) 12 (600 - 130))
        = ((548, 458) : Int × Int) := by
  have hcov : ∀ i j : Nat, 12 + 24 * (i : Int) ≤ 800 - 240 → 12 + 24 * (j : Int) ≤ 600 - 130 →
      overlapsAny [{ sampleTask "a" 0 0 with w := 800, h := 600 }] 240 130
        (12 + 24 * i) (12 + 24 * j) = true := by
    intro i j hi hj
    simp only [overlapsAny, sampleTask, taskRect, orDefault, rectsOverlap, List.any_cons,
      List.any_nil, Bool.or_false]
    simp only [Bool.not_eq_true', Bool.or_eq_false_iff, decide_eq_false_iff_not, not_le]
    norm_num
    omega
  exact ⟨hcov,
    findFreePosition_fallback [{ sampleTask "a" 0 0 with w := 800, h := 600 }] 240 130 800 600
      hcov, by decide⟩

/-! ## rectsOverlap -/

theorem rectsOverlap_iff (a b : Rect) :
    rectsOverlap a b = true ↔
      b.x < a.x + a.w ∧ a.x < b.x + b.w ∧ b.y < a.y + a.h ∧ a.y < b.y + b.h := by
  unfold rectsOverlap
  simp only [Bool.not_eq_true', Bool.or_eq_false_iff, decide_eq_false_iff_not, not_le]
  tauto

/-- C6 (as stated, refuted): the degenerate rectangle `{x: 5, y: 5, w: 0, h: 0}` and
`{x: 0, y: 0, w: 10, h: 10}` are reported as overlapping although their intersection, a
single point, has area `0`. -/
theorem rectsOverlap_area_counterexample :
    rectsOverlap { x := 5, y := 5, w := 0, h := 0 } { x := 0, y := 0, w := 10, h := 10 } = true ∧
      ¬ (0 < intersectionArea { x := 5, y := 5, w := 0, h := 0 }
        { x := 0, y := 0, w := 10, h := 10 }) := by
  decide

/-- C6 (amended): for rectangles `a` and `b` whose fields are integers of magnitude at most
`2^52` (where the code's sums are exact) and whose width and height are positive,
`rectsOverlap(a, b)` is true if and only if the intersection of
`[a.x, a.x+a.w] × [a.y, a.y+a.h]` and `[b.x, b.x+b.w] × [b.y, b.y+b.h]` has positive area.
The range hypotheses are not used by the proof: they mark the inputs on which
`rectsOverlap` is the code's test. -/
theorem rectsOverlap_iff_positive_area (a b : Rect) (_ha : exactRect a) (_hb : exactRect b)
    (haw : 0 < a.w) (hah : 0 < a.h) (hbw : 0 < b.w) (hbh : 0 < b.h) :
    rectsOverlap a b = true ↔ 0 < intersectionArea a b := by
  rw [rectsOverlap_iff]
  unfold intersectionArea
  constructor
  · rintro ⟨h1, h2, h3, h4⟩
    have hx : 0 < min (a.x + a.w) (b.x + b.w) - max a.x b.x := by
      have : max a.x b.x < min (a.x + a.w) (b.x + b.w) := by
        rw [max_lt_iff, lt_min_iff, lt_min_iff]
        exact ⟨⟨by omega, h2⟩, ⟨h1, by omega⟩⟩
      omega
    have hy : 0 < min (a.y + a.h) (b.y + b.h) - max a.y b.y := by
      have : max a.y b.y < min (a.y + a.h) (b.y + b.h) := by
        rw [max_lt_iff, lt_min_iff, lt_min_iff]
        exact ⟨⟨by omega, h4⟩, ⟨h3, by omega⟩⟩
      omega
    exact mul_pos (lt_max_of_lt_right hx) (lt_max_of_lt_right hy)
  · intro hpos
    have hx : 0 < max 0 (min (a.x + a.w) (b.x + b.w) - max a.x b.x) := by
      by_contra hc
      have h0 : max 0 (min (a.x + a.w) (b.x + b.w) - max a.x b.x) = 0 :=
        le_antisymm (not_lt.mp hc) (le_max_left _ _)
      rw [h0, zero_mul] at hpos
      exact lt_irrefl _ hpos
    have hy : 0 < max 0 (min (a.y + a.h) (b.y + b.h) - max a.y b.y) := by
      by_contra hc
      have h0 : max 0 (min (a.y + a.h) (b.y + b.h) - max a.y b.y) = 0 :=
        le_antisymm (not_lt.mp hc) (le_max_left _ _)
      rw [h0, mul_zero] at hpos
      exact lt_irrefl _ hpos
    rw [lt_max_iff] at hx hy
    have hx2 : max a.x b.x < min (a.x + a.w) (b.x + b.w) := by
      rcases hx with hx | hx
      · exact absurd hx (lt_irrefl _)
      · omega
    have hy2 : max a.y b.y < min (a.y + a.h) (b.y + b.h) := by
      rcases hy with hy | hy
      · exact absurd hy (lt_irrefl _)
      · omega
    rw [max_lt_iff, lt_min_iff, lt_min_iff] at hx2 hy2
    exact ⟨hx2.2.1, hx2.1.2, hy2.2.1, hy2.1.2⟩

/-- C6 at concrete rectangles: two crossing cards, and two cards that only touch. -/
theorem rectsOverlap_iff_positive_area_witness :
    rectsOverlap { x := 12, y := 12, w := 240, h := 130 }
        { x := 36, y := 36, w := 240, h := 130 } = true ∧
      0 < intersectionArea { x := 12, y := 12, w := 240, h := 130 }
        { x := 36, y := 36, w := 240, h := 130 } ∧
      rectsOverlap { x := 252, y := 12, w := 240, h := 130 }
        { x := 12, y := 12, w := 240, h := 130 } = false ∧
      ¬ (0 < intersectionArea { x := 252, y := 12, w := 240, h := 130 }
        { x := 12, y := 12, w := 240, h := 130 }) :=
  ⟨by decide,
    (rectsOverlap_iff_positive_area { x := 12, y := 12, w := 240, h := 130 }
      { x := 36, y := 36, w := 240, h := 130 } (by decide) (by decide) (by decide) (by decide)
      (by decide) (by decide)).mp (by decide),
    by decide, by decide⟩

/-- C7 (as stated, refuted): the rectangle `{x: 0, y: 0, w: 0, h: 130}` of width `0` does not
overlap itself. -/
theorem rectsOverlap_self_counterexample :
    rectsOverlap { x := 0, y := 0, w := 0, h := 130 } { x := 0, y := 0, w := 0, h := 130 }
      = false := by
  decide

/-- C7 (amended): every rectangle `a` whose fields are integers of magnitude at most `2^52`
(where the code's sums are exact) and whose width and height are positive overlaps itself:
`rectsOverlap(a, a)` is true.  The range hypothesis is not used by the proof: it marks the
inputs on which `rectsOverlap` is the code's test. -/
theorem rectsOverlap_self (a : Rect) (_ha : exactRect a) (hw : 0 < a.w) (hh : 0 < a.h) :
    rectsOverlap a a = true := by
  rw [rectsOverlap_iff]
  exact ⟨by omega, by omega, by omega, by omega⟩

/-- C7 at a concrete rectangle: a 240×130 card overlaps itself. -/
theorem rectsOverlap_self_witness :
    exactRect { x := 12, y := 12, w := 240, h := 130 } ∧
      rectsOverlap { x := 12, y := 12, w := 240, h := 130 }
        { x := 12, y := 12, w := 240, h := 130 } = true :=
  ⟨by decide,
    rectsOverlap_self { x := 12, y := 12, w := 240, h := 130 } (by decide) (by decide)
      (by decide)⟩

/-! ## Scan order -/

theorem findSome?_forRangeAux (step hi : Int) {β : Type} (f : Int → Option β) (b : β) :
    ∀ (fuel : Nat) (lo : Int), (forRangeAux step hi fuel lo).findSome? f = some b →
      ∃ k : Nat, lo + step * k ≤ hi ∧ f (lo + step * k) = some b ∧
        ∀ k2 : Nat, k2 < k → f (lo + step * k2) = none := by
  intro fuel
  induction fuel with
  | zero => intro lo hf; simp [forRangeAux] at hf
  | succ n ih =>
    intro lo hf
    unfold forRangeAux at hf
    by_cases hlo : lo ≤ hi
    · rw [if_pos hlo, List.findSome?_cons] at hf
      cases hfl : f lo with
      | some b2 =>
        rw [hfl] at hf
        refine ⟨0, by simpa using hlo, by simpa [hfl] using hf, ?_⟩
        intro k2 hk2
        omega
      | none =>
        rw [hfl] at hf
        obtain ⟨k, hk, hfk, hbefore⟩ := ih (lo + step) hf
        refine ⟨k + 1, ?_, ?_, ?_⟩
        · push_cast
          rw [show lo + step * ((k : Int) + 1) = lo + step + step * k by ring]
          exact hk
        · push_cast
          rw [show lo + step * ((k : Int) + 1) = lo + step + step * k by ring]
          exact hfk
        · intro k2 hk2
          cases k2 with
          | zero => simpa using hfl
          | succ k3 =>
            push_cast
            rw [show lo + step * ((k3 : Int) + 1) = lo + step + step * k3 by ring]
            exact hbefore k3 (by omega)
    · rw [if_neg hlo] at hf
      simp at hf

/-- A loop `for (let v = lo; v <= hi; v += step)` that exits at its first hit exits at some
round `k`, and the body found nothing in any earlier round. -/
theorem findSome?_forRange (lo step hi : Int) {β : Type} (f : Int → Option β) (b : β)
    (hf : (forRange lo step hi).findSome? f = some b) :
    ∃ k : Nat, lo + step * k ≤ hi ∧ f (lo + step * k) = some b ∧
      ∀ k2 : Nat, k2 < k → f (lo + step * k2) = none :=
  findSome?_forRangeAux step hi f b _ lo hf

/-- C12: whenever the grid scan of `findFreePosition` finds a position `p`, `findFreePosition`
returns it, it is a grid candidate that overlaps no existing task, and every grid candidate
`(12 + 24 i, 12 + 24 j)` inside the canvas that lies in an earlier row, or in the same row
further left, overlaps some existing task: the top-most, then left-most free slot wins. -/
theorem findFreePosition_row_major (tasks : List Task) (w h cw ch : Int) (p : Int × Int)
    (hp : gridScan tasks w h cw ch = some p) :
    findFreePosition tasks w h cw ch = p ∧
      (∃ i j : Nat, p = (12 + 24 * (i : Int), 12 + 24 * (j : Int)) ∧
        p.1 ≤ cw - w ∧ p.2 ≤ ch - h) ∧
      overlapsAny tasks w h p.1 p.2 = false ∧
      ∀ i j : Nat, 12 + 24 * (i : Int) ≤ cw - w → 12 + 24 * (j : Int) ≤ ch - h →
        (12 + 24 * (j : Int) < p.2 ∨ (12 + 24 * (j : Int) = p.2 ∧ 12 + 24 * (i : Int) < p.1)) →
        overlapsAny tasks w h (12 + 24 * i) (12 + 24 * j) = true := by
  have hret : findFreePosition tasks w h cw ch = p := by
    unfold findFreePosition
    rw [hp]
  unfold gridScan at hp
  obtain ⟨j0, hj0, hrow, hrows⟩ := findSome?_forRange _ _ _ _ _ hp
  obtain ⟨i0, hi0, hcell, hcells⟩ := findSome?_forRange _ _ _ _ _ hrow
  have hfree : overlapsAny tasks w h (12 + 24 * (i0 : Int)) (12 + 24 * (j0 : Int)) = false ∧
      p = (12 + 24 * (i0 : Int), 12 + 24 * (j0 : Int)) := by
    split at hcell
    · exact absurd hcell (by simp)
    · rename_i hno
      exact ⟨by simpa using hno, by simpa using hcell.symm⟩
  obtain ⟨hno, rfl⟩ := hfree
  refine ⟨hret, ⟨i0, j0, rfl, hi0, hj0⟩, hno, ?_⟩
  intro i j hi hj hbefore
  simp only at hbefore
  rcases hbefore with hlt | ⟨heq, hlt⟩
  · have hnone := hrows j (by omega)
    rw [List.findSome?_eq_none_iff] at hnone
    have hmem : 12 + 24 * (i : Int) ∈ forRange 12 24 (cw - w) := by
      rw [mem_forRange _ _ _ _ (by norm_num)]
      exact ⟨i, rfl, hi⟩
    have hcand := hnone _ hmem
    by_contra hc
    rw [if_neg hc] at hcand
    exact absurd hcand (by simp)
  · have hj : j = j0 := by omega
    subst hj
    have hcand := hcells i (by omega)
    by_contra hc
    rw [if_neg hc] at hcand
    exact absurd hcand (by simp)

/-- C12 at a concrete board: the third card goes to `(516, 12)`, and the earlier candidate
`(252, 12)` of the same row is taken. -/
theorem findFreePosition_row_major_witness :
    gridScan [sampleTask "a" 12 12, sampleTask "b" 276 12] 240 130 800 600 = some (516, 12) ∧
      overlapsAny [sampleTask "a" 12 12, sampleTask "b" 276 12] 240 130
        (12 + 24 * ((10 : Nat) : Int)) (12 + 24 * ((0 : Nat) : Int)) = true :=
  ⟨by decide,
    (findFreePosition_row_major [sampleTask "a" 12 12, sampleTask "b" 276 12] 240 130 800 600
      (516, 12) (by decide)).2.2.2 10 0 (by decide) (by decide) (by decide)⟩

theorem forRangeAux_eq_map_range (step hi : Int) :
    ∀ (n fuel : Nat) (lo : Int), n ≤ fuel →
      (∀ i : Nat, i < n → lo + step * i ≤ hi) → hi < lo + step * n →
      forRangeAux step hi fuel lo = (List.range n).map fun i : Nat => lo + step * (i : Int) := by
  intro n
  induction n with
  | zero =>
    intro fuel lo _ _ hlast
    have hlo : ¬ lo ≤ hi := by simpa using hlast
    cases fuel with
    | zero => rfl
    | succ m =>
      unfold forRangeAux
      rw [if_neg hlo]
      rfl
  | succ n ih =>
    intro fuel lo hfuel hin hlast
    cases fuel with
    | zero => omega
    | succ m =>
      have hlo : lo ≤ hi := by simpa using hin 0 (by omega)
      unfold forRangeAux
      rw [if_pos hlo, List.range_succ_eq_map, List.map_cons, List.map_map]
      have hrest := ih m (lo + step) (by omega)
        (fun i hi2 => by
          have := hin (i + 1) (by omega)
          push_cast at this
          rw [show lo + step + step * (i : Int) = lo + step * ((i : Int) + 1) by ring]
          exact this)
        (by
          push_cast at hlast
          rw [show lo + step + step * (n : Int) = lo + step * ((n : Int) + 1) by ring]
          exact hlast)
      rw [hrest]
      congr 1
      · simp
      · apply List.map_congr_left
        intro i _
        simp only [Function.comp, Nat.succ_eq_add_one]
        push_cast
        ring

/-- The loop `for (let radius = 12; radius < 400; radius += 12)` visits `12, 24, ..., 396`. -/
theorem forRange_radii :
    forRange 12 12 399 = (List.range 33).map fun k : Nat => 12 * ((k : Int) + 1) := by
  decide

/-- The loops `for (let d = -radius; d <= radius; d += 12)` at `radius = 12 * (k + 1)` visit
`-radius + 12 * i` for `i = 0, ..., 2 * (k + 1)`. -/
theorem forRange_offsets (k : Nat) :
    forRange (-(12 * ((k : Int) + 1))) 12 (12 * ((k : Int) + 1))
      = (List.range (2 * (k + 1) + 1)).map fun i : Nat => -(12 * ((k : Int) + 1)) + 12 * (i : Int) := by
  unfold forRange
  apply forRangeAux_eq_map_range
  · omega
  · intro i hi
    omega
  · push_cast
    omega

theorem findSome?_congr_mem {α β : Type} (l : List α) (f g : α → Option β)
    (hfg : ∀ a ∈ l, f a = g a) : l.findSome? f = l.findSome? g := by
  induction l with
  | nil => rfl
  | cons a l ih =>
    rw [List.findSome?_cons, List.findSome?_cons, hfg a (List.mem_cons_self a l),
      ih (fun b hb => hfg b (List.mem_cons_of_mem a hb))]

theorem findSome?_flatMap_eq {α β γ : Type} (l : List α) (f : α → List β) (g : β → Option γ) :
    (l.flatMap f).findSome? g = l.findSome? fun a => (f a).findSome? g := by
  induction l with
  | nil => rfl
  | cons a l ih =>
    rw [List.flatMap_cons, List.findSome?_append, List.findSome?_cons, ih]
    cases (f a).findSome? g <;> rfl

/-- The three nested loops of `commitMove` test the offsets of `scanOffsets`, in that order. -/
theorem ringSearch_eq_findSome? (tasks : List Task) (id : String) (w h cw ch nx ny : Int) :
    ringSearch tasks id w h cw ch nx ny
      = scanOffsets.findSome? fun o =>
          if isOverlap tasks id w h (clamp (nx + o.1) 0 (cw - w)) (clamp (ny + o.2) 0 (ch - h))
          then none
          else some (clamp (nx + o.1) 0 (cw - w), clamp (ny + o.2) 0 (ch - h)) := by
  unfold ringSearch scanOffsets
  rw [forRange_radii, List.findSome?_map, findSome?_flatMap_eq]
  apply findSome?_congr_mem
  intro k _
  simp only [Function.comp]
  rw [forRange_offsets k, List.findSome?_map, findSome?_flatMap_eq]
  apply findSome?_congr_mem
  intro i _
  simp only [Function.comp]
  rw [List.findSome?_map, List.findSome?_map]
  rfl

theorem ringSearch_eq_find? (tasks : List Task) (id : String) (w h cw ch nx ny : Int) :
    ringSearch tasks id w h cw ch nx ny
      = (scanCandidates w h cw ch nx ny).find? fun c => !isOverlap tasks id w h c.1 c.2 := by
  rw [ringSearch_eq_findSome?]
  unfold scanCandidates
  rw [← List.findSome?_guard, List.findSome?_map]
  apply findSome?_congr_mem
  intro o _
  simp only [Function.comp, Option.guard]
  cases isOverlap tasks id w h (clamp (nx + o.1) 0 (cw - w)) (clamp (ny + o.2) 0 (ch - h)) <;> rfl

/-- C13: when the clamped proposed position `(nx, ny)` overlaps another task, the position
`commitMove` accepts and stores is the first candidate, in the scan order `radius = 12, 24, ...,
396`, then `dx` ascending, then `dy` ascending, each candidate being
`(clamp(nx + dx, 0, cw - w), clamp(ny + dy, 0, ch - h))`, that overlaps no other task; and when
every candidate overlaps, it is the clamped base `(nx, ny)` itself. -/
theorem commitMove_first_free_candidate (tasks : List Task) (id : String)
    (x y w h cw ch : Int)
    (hov : isOverlap tasks id w h (clamp x 0 (cw - w)) (clamp y 0 (ch - h)) = true) :
    commitMovePos tasks id x y w h cw ch
        = ((scanCandidates w h cw ch (clamp x 0 (cw - w)) (clamp y 0 (ch - h))).find?
            fun c => !isOverlap tasks id w h c.1 c.2).getD
            (clamp x 0 (cw - w), clamp y 0 (ch - h)) ∧
      (∀ t ∈ commitMove tasks id x y w h cw ch, t.id = id →
        (t.x, t.y) = firstFreeCandidate tasks id w h cw ch
          (clamp x 0 (cw - w)) (clamp y 0 (ch - h))) ∧
      ((∀ c ∈ scanCandidates w h cw ch (clamp x 0 (cw - w)) (clamp y 0 (ch - h)),
          isOverlap tasks id w h c.1 c.2 = true) →
        commitMovePos tasks id x y w h cw ch = (clamp x 0 (cw - w), clamp y 0 (ch - h))) := by
  have hpos : commitMovePos tasks id x y w h cw ch
      = firstFreeCandidate tasks id w h cw ch (clamp x 0 (cw - w)) (clamp y 0 (ch - h)) := by
    unfold commitMovePos firstFreeCandidate
    simp only [hov, if_true]
    rw [ringSearch_eq_find?]
    cases (scanCandidates w h cw ch (clamp x 0 (cw - w)) (clamp y 0 (ch - h))).find?
      fun c => !isOverlap tasks id w h c.1 c.2 <;> rfl
  refine ⟨hpos, ?_, ?_⟩
  · intro t ht hid
    rw [← hpos]
    exact commitMove_mem_pos tasks id x y w h cw ch t ht hid
  · intro hall
    rw [hpos]
    unfold firstFreeCandidate
    have hnone : (scanCandidates w h cw ch (clamp x 0 (cw - w)) (clamp y 0 (ch - h))).find?
        (fun c => !isOverlap tasks id w h c.1 c.2) = none := by
      rw [List.find?_eq_none]
      intro c hc
      simp [hall c hc]
    rw [hnone]
    rfl

/-- C13 at a concrete drag: task `b` dropped exactly onto task `a`; the first ring is scanned
in the order `(-12,-12), (-12,0), (-12,12), (0,-12), ...`, and the accepted position `(0, 232)`
is the first free candidate. -/
theorem commitMove_first_free_candidate_witness :
    isOverlap [sampleTask "a" 100 100, sampleTask "b" 400 300] "b" 240 130
        (clamp 100 0 (800 - 240)) (clamp 100 0 (600 - 130)) = true ∧
      scanOffsets.take 4 = [(-12, -12), (-12, 0), (-12, 12), (0, -12)] ∧
      commitMovePos [sampleTask "a" 100 100, sampleTask "b" 400 300] "b" 100 100 240 130 800 600
        = (0, 232) ∧
      commitMovePos [sampleTask "a" 100 100, sampleTask "b" 400 300] "b" 100 100 240 130 800 600
        = ((scanCandidates 240 130 800 600 (clamp 100 0 (800 - 240))
              (clamp 100 0 (600 - 130))).find?
            fun c => !isOverlap [sampleTask "a" 100 100, sampleTask "b" 400 300] "b" 240 130
              c.1 c.2).getD
            (clamp 100 0 (800 - 240), clamp 100 0 (600 - 130)) :=
  ⟨by decide, by decide, by decide,
    (commitMove_first_free_candidate [sampleTask "a" 100 100, sampleTask "b" 400 300] "b"
      100 100 240 130 800 600 (by decide)).1⟩

/-! ## List reordering -/

theorem splice_remove_one {α : Type} (tasks : List α) (s : Nat) (hs : s < tasks.length) :
    splice tasks s 1 [] = ([tasks.get ⟨s, hs⟩], tasks.eraseIdx s) := by
  unfold splice
  have hmin : min s tasks.length = s := by omega
  simp only [hmin, List.append_nil, List.drop_drop]
  refine Prod.ext ?_ ?_
  · show List.take 1 (List.drop s tasks) = [tasks.get ⟨s, hs⟩]
    rw [List.drop_eq_getElem_cons hs]
    rfl
  · show List.take s tasks ++ List.drop (s + 1) tasks = tasks.eraseIdx s
    rw [List.eraseIdx_eq_take_drop_succ]

theorem splice_insert_one {α : Type} (rest : List α) (d : Nat) (a : α)
    (hd : d ≤ rest.length) :
    (splice rest d 0 [a]).2 = rest.take d ++ a :: rest.drop d := by
  unfold splice
  have hmin : min d rest.length = d := by omega
  simp [hmin]

/-- Removing the element at `s` and inserting it back at `d`: same length, the element sits at
index `d`, and without index `d` the list is the original without index `s`. -/
theorem move_item_spec {α : Type} (tasks : List α) (s d : Nat) (hs : s < tasks.length)
    (hd : d < tasks.length) :
    ((tasks.eraseIdx s).take d ++ tasks.get ⟨s, hs⟩ :: (tasks.eraseIdx s).drop d).length
        = tasks.length ∧
      ((tasks.eraseIdx s).take d ++ tasks.get ⟨s, hs⟩ :: (tasks.eraseIdx s).drop d)[d]?
        = tasks[s]? ∧
      ((tasks.eraseIdx s).take d ++ tasks.get ⟨s, hs⟩ :: (tasks.eraseIdx s).drop d).eraseIdx d
        = tasks.eraseIdx s := by
  have hlen : (tasks.eraseIdx s).length = tasks.length - 1 := List.length_eraseIdx_of_lt hs
  have htake : ((tasks.eraseIdx s).take d).length = d := by
    rw [List.length_take]
    omega
  refine ⟨?_, ?_, ?_⟩
  · rw [List.length_append, List.length_cons, List.length_drop, htake, hlen]
    omega
  · rw [List.getElem?_append_right (by omega), htake]
    simp [List.getElem?_eq_getElem hs]
  · rw [List.eraseIdx_append_of_length_le (by omega), htake]
    simp

theorem handleDragEnd_eq {α : Type} (undefined : α) (tasks : List α) (s d : Nat)
    (hs : s < tasks.length) (hd : d < tasks.length) :
    handleDragEnd undefined tasks s (some d)
      = (tasks.eraseIdx s).take d ++ tasks.get ⟨s, hs⟩ :: (tasks.eraseIdx s).drop d := by
  have hlen : (tasks.eraseIdx s).length = tasks.length - 1 := List.length_eraseIdx_of_lt hs
  unfold handleDragEnd
  simp only [splice_remove_one tasks s hs, List.headD_cons]
  exact splice_insert_one _ d _ (by omega)

theorem handleDragOver_eq {α : Type} (undefined : α) (tasks : List α) (s d : Nat)
    (hs : s < tasks.length) (hd : d < tasks.length) (hne : d ≠ s) :
    handleDragOver undefined tasks (some s) d
      = ((tasks.eraseIdx s).take d ++ tasks.get ⟨s, hs⟩ :: (tasks.eraseIdx s).drop d,
          some d) := by
  have hlen : (tasks.eraseIdx s).length = tasks.length - 1 := List.length_eraseIdx_of_lt hs
  unfold handleDragOver
  simp only [if_neg (Ne.symm hne), splice_remove_one tasks s hs, List.headD_cons]
  rw [splice_insert_one _ d _ (by omega)]

/-- C14: for a source index `s` and a destination index `d` below the list length, the list
`handleDragEnd` produces, and the list `handleDragOver` produces with `draggedIndex = s` and
target `d ≠ s`, has the length of the original, holds the original's element `s` at index `d`,
and with index `d` removed equals the original with index `s` removed; `handleDragEnd` without
a destination leaves the list unchanged. -/
theorem reorder_moves_one_task {α : Type} (undefined : α) (tasks : List α) (s d : Nat)
    (hs : s < tasks.length) (hd : d < tasks.length) :
    ((handleDragEnd undefined tasks s (some d)).length = tasks.length ∧
        (handleDragEnd undefined tasks s (some d))[d]? = tasks[s]? ∧
        (handleDragEnd undefined tasks s (some d)).eraseIdx d = tasks.eraseIdx s) ∧
      (d ≠ s →
        (handleDragOver undefined tasks (some s) d).1.length = tasks.length ∧
        (handleDragOver undefined tasks (some s) d).1[d]? = tasks[s]? ∧
        (handleDragOver undefined tasks (some s) d).1.eraseIdx d = tasks.eraseIdx s) ∧
      handleDragEnd undefined tasks s none = tasks := by
  refine ⟨?_, ?_, rfl⟩
  · rw [handleDragEnd_eq undefined tasks s d hs hd]
    exact move_item_spec tasks s d hs hd
  · intro hne
    rw [handleDragOver_eq undefined tasks s d hs hd hne]
    exact move_item_spec tasks s d hs hd

/-- C14 at a concrete list: moving the first of four items to index 2. -/
theorem reorder_moves_one_task_witness :
    handleDragEnd 0 [10, 20, 30, 40] 0 (some 2) = [20, 30, 10, 40] ∧
      (handleDragOver 0 [10, 20, 30, 40] (some 0) 2).1 = [20, 30, 10, 40] ∧
      ((handleDragEnd 0 [10, 20, 30, 40] 0 (some 2)).length = [10, 20, 30, 40].length ∧
        (handleDragEnd 0 [10, 20, 30, 40] 0 (some 2))[2]? = [10, 20, 30, 40][0]? ∧
        (handleDragEnd 0 [10, 20, 30, 40] 0 (some 2)).eraseIdx 2
          = [10, 20, 30, 40].eraseIdx 0) :=
  ⟨by decide, by decide,
    (reorder_moves_one_task 0 [10, 20, 30, 40] 0 2 (by decide) (by decide)).1⟩

/-! ## Task ids -/

theorem digitChar_value (n : Nat) (hn : n < 10) : (Nat.digitChar n).toNat - 48 = n := by
  interval_cases n <;> rfl

theorem digitsValue_append_singleton (l : List Char) (c : Char) :
    digitsValue (l ++ [c]) = 10 * digitsValue l + (c.toNat - 48) := by
  unfold digitsValue
  rw [List.foldl_append]
  rfl

theorem toDigitsCore_value :
    ∀ (fuel n : Nat) (ds : List Char), n < fuel →
      ∃ l, Nat.toDigitsCore 10 fuel n ds = l ++ ds ∧ digitsValue l = n := by
  intro fuel
  induction fuel with
  | zero => intro n ds hn; omega
  | succ m ih =>
    intro n ds hn
    unfold Nat.toDigitsCore
    simp only
    by_cases hq : n / 10 = 0
    · rw [if_pos hq]
      refine ⟨[Nat.digitChar (n % 10)], rfl, ?_⟩
      have h := digitsValue_append_singleton [] (Nat.digitChar (n % 10))
      simp only [List.nil_append] at h
      rw [h, digitChar_value _ (Nat.mod_lt _ (by norm_num))]
      have : digitsValue [] = 0 := rfl
      omega
    · rw [if_neg hq]
      obtain ⟨l, hl, hv⟩ := ih (n / 10) (Nat.digitChar (n % 10) :: ds) (by omega)
      refine ⟨l ++ [Nat.digitChar (n % 10)], by rw [hl]; simp, ?_⟩
      rw [digitsValue_append_singleton, hv, digitChar_value _ (Nat.mod_lt _ (by norm_num))]
      omega

/-- The decimal text `Date.now().toString()` determines the timestamp. -/
theorem toString_nat_injective (a b : Nat) (hab : toString a = toString b) : a = b := by
  have hrepr : (Nat.toDigits 10 a).asString = (Nat.toDigits 10 b).asString := hab
  have hdata : Nat.toDigits 10 a = Nat.toDigits 10 b := by
    have := congrArg String.data hrepr
    simpa [List.asString] using this
  unfold Nat.toDigits at hdata
  obtain ⟨la, hla, hva⟩ := toDigitsCore_value (a + 1) a [] (by omega)
  obtain ⟨lb, hlb, hvb⟩ := toDigitsCore_value (b + 1) b [] (by omega)
  rw [hla, hlb, List.append_nil, List.append_nil] at hdata
  rw [← hva, ← hvb, hdata]

theorem ids_handleAddTask (tasks : List Task) (newTask : String) (priority : Priority)
    (category : Category) (newDueDate : String) (now : Nat) (cw ch : Int) :
    (handleAddTask tasks newTask priority category newDueDate now cw ch).map Task.id
      = if jsTrim newTask = "" then tasks.map Task.id
        else tasks.map Task.id ++ [toString now] := by
  unfold handleAddTask
  by_cases hb : jsTrim newTask = ""
  · rw [if_pos hb, if_pos hb]
  · rw [if_neg hb, if_neg hb]
    simp

theorem ids_handleDeleteTask (tasks : List Task) (id : String) :
    (handleDeleteTask tasks id).map Task.id
      = (tasks.map Task.id).filter fun s => decide (s ≠ id) := by
  unfold handleDeleteTask
  rw [List.filter_map]
  rfl

theorem ids_toggleComplete (tasks : List Task) (id : String) :
    (toggleComplete tasks id).map Task.id = tasks.map Task.id := by
  unfold toggleComplete
  rw [List.map_map]
  apply List.map_congr_left
  intro t _
  simp only [Function.comp]
  split <;> rfl

theorem ids_commitMove (tasks : List Task) (id : String) (x y w h cw ch : Int) :
    (commitMove tasks id x y w h cw ch).map Task.id = tasks.map Task.id := by
  unfold commitMove
  simp only [List.map_map]
  apply List.map_congr_left
  intro t _
  simp only [Function.comp]
  split <;> rfl

/-- Invariant of a run: the ids are pairwise distinct and each is the text of a timestamp
below the bound `b`, which every later clock read reaches. -/
theorem foldl_applyOp_ids_nodup :
    ∀ (ops : List Op) (tasks : List Task) (b : Nat),
      (tasks.map Task.id).Nodup →
      (∀ s ∈ tasks.map Task.id, ∃ n : Nat, n < b ∧ s = toString n) →
      (∀ n ∈ clockReads ops, b ≤ n) →
      (clockReads ops).Pairwise (fun m n => m < n) →
      ((ops.foldl applyOp tasks).map Task.id).Nodup := by
  intro ops
  induction ops with
  | nil => intro tasks b hnd _ _ _; exact hnd
  | cons op rest ih =>
    intro tasks b hnd hids hreads hpair
    rw [List.foldl_cons]
    cases op with
    | add newTask priority category newDueDate now cw ch =>
      by_cases hb : jsTrim newTask = ""
      · have hsame : applyOp tasks (Op.add newTask priority category newDueDate now cw ch)
            = tasks := by
          simp [applyOp, handleAddTask, hb]
        have hcr : clockReads (Op.add newTask priority category newDueDate now cw ch :: rest)
            = clockReads rest := by
          simp [clockReads, hb]
        rw [hsame]
        rw [hcr] at hreads hpair
        exact ih tasks b hnd hids hreads hpair
      · have hcr : clockReads (Op.add newTask priority category newDueDate now cw ch :: rest)
            = now :: clockReads rest := by
          simp [clockReads, hb]
        rw [hcr] at hreads hpair
        have hnow : b ≤ now := hreads now (List.mem_cons_self _ _)
        rw [List.pairwise_cons] at hpair
        have hidsNew : (applyOp tasks
            (Op.add newTask priority category newDueDate now cw ch)).map Task.id
            = tasks.map Task.id ++ [toString now] := by
          show (handleAddTask tasks newTask priority category newDueDate now cw ch).map Task.id
            = _
          rw [ids_handleAddTask, if_neg hb]
        apply ih _ (now + 1)
        · rw [hidsNew, List.nodup_append]
          refine ⟨hnd, List.nodup_singleton _, ?_⟩
          intro s hs hs2
          rw [List.mem_singleton] at hs2
          obtain ⟨n, hn, hsn⟩ := hids s hs
          have : now = n := toString_nat_injective now n (by rw [← hs2, hsn])
          omega
        · intro s hs
          rw [hidsNew, List.mem_append, List.mem_singleton] at hs
          rcases hs with hs | hs
          · obtain ⟨n, hn, hsn⟩ := hids s hs
            exact ⟨n, by omega, hsn⟩
          · exact ⟨now, by omega, hs⟩
        · intro n hn
          have := hpair.1 n hn
          omega
        · exact hpair.2
    | delete id =>
      have hidsNew : (applyOp tasks (Op.delete id)).map Task.id
          = (tasks.map Task.id).filter fun s => decide (s ≠ id) :=
        ids_handleDeleteTask tasks id
      apply ih _ b
      · rw [hidsNew]
        exact hnd.filter _
      · intro s hs
        rw [hidsNew] at hs
        exact hids s (List.mem_filter.mp hs).1
      · exact hreads
      · exact hpair
    | toggle id =>
      have hidsNew : (applyOp tasks (Op.toggle id)).map Task.id = tasks.map Task.id :=
        ids_toggleComplete tasks id
      apply ih _ b
      · rw [hidsNew]; exact hnd
      · rw [hidsNew]; exact hids
      · exact hreads
      · exact hpair
    | move id x y w h cw ch =>
      have hidsNew : (applyOp tasks (Op.move id x y w h cw ch)).map Task.id
          = tasks.map Task.id :=
        ids_commitMove tasks id x y w h cw ch
      apply ih _ b
      · rw [hidsNew]; exact hnd
      · rw [hidsNew]; exact hids
      · exact hreads
      · exact hpair

/-- C11 (amended): in every task list reached from the empty list by a sequence of
`handleAddTask`, `handleDeleteTask`, `toggleComplete` and `commitMove` calls in which the
values `Date.now()` returns to successive adds strictly increase (no two adds read the same
millisecond), the task ids are pairwise distinct; and no operation changes the id of an
existing task: adding keeps the ids and appends at most one, deleting only removes ids,
toggling and moving keep the list of ids as it is. -/
theorem task_ids_distinct (ops : List Op)
    (hclock : (clockReads ops).Pairwise (fun m n => m < n)) :
    ((runOps ops).map Task.id).Nodup ∧
      (∀ (tasks : List Task) (newTask : String) (priority : Priority) (category : Category)
          (newDueDate : String) (now : Nat) (cw ch : Int),
        (handleAddTask tasks newTask priority category newDueDate now cw ch).map Task.id
            = tasks.map Task.id ∨
          (handleAddTask tasks newTask priority category newDueDate now cw ch).map Task.id
            = tasks.map Task.id ++ [toString now]) ∧
      (∀ (tasks : List Task) (id : String),
        (handleDeleteTask tasks id).map Task.id
          = (tasks.map Task.id).filter fun s => decide (s ≠ id)) ∧
      (∀ (tasks : List Task) (id : String),
        (toggleComplete tasks id).map Task.id = tasks.map Task.id) ∧
      (∀ (tasks : List Task) (id : String) (x y w h cw ch : Int),
        (commitMove tasks id x y w h cw ch).map Task.id = tasks.map Task.id) := by
  refine ⟨?_, ?_, ids_handleDeleteTask, ids_toggleComplete, ids_commitMove⟩
  · unfold runOps
    exact foldl_applyOp_ids_nodup ops [] 0 List.nodup_nil (by simp) (by simp) hclock
  · intro tasks newTask priority category newDueDate now cw ch
    rw [ids_handleAddTask]
    by_cases hb : jsTrim newTask = ""
    · left; rw [if_pos hb]
    · right; rw [if_neg hb]

/-- C11 at a concrete run: two adds at timestamps 1000 and 1001, a blank add, a toggle and a
move give the ids `"1000"` and `"1001"`. -/
theorem task_ids_distinct_witness :
    (clockReads [Op.add "buy milk" Priority.low Category.personal "" 1000 800 600,
        Op.add " call " Priority.high Category.work "2026-01-01" 1001 800 600,
        Op.add "  " Priority.low Category.personal "" 1001 800 600,
        Op.toggle "1000",
        Op.move "1001" 0 0 240 130 800 600]).Pairwise (fun m n => m < n) ∧
      (runOps [Op.add "buy milk" Priority.low Category.personal "" 1000 800 600,
        Op.add " call " Priority.high Category.work "2026-01-01" 1001 800 600,
        Op.add "  " Priority.low Category.personal "" 1001 800 600,
        Op.toggle "1000",
        Op.move "1001" 0 0 240 130 800 600]).map Task.id = ["1000", "1001"] ∧
      ((runOps [Op.add "buy milk" Priority.low Category.personal "" 1000 800 600,
        Op.add " call " Priority.high Category.work "2026-01-01" 1001 800 600,
        Op.add "  " Priority.low Category.personal "" 1001 800 600,
        Op.toggle "1000",
        Op.move "1001" 0 0 240 130 800 600]).map Task.id).Nodup :=
  ⟨by decide, by decide,
    (task_ids_distinct [Op.add "buy milk" Priority.low Category.personal "" 1000 800 600,
        Op.add " call " Priority.high Category.work "2026-01-01" 1001 800 600,
        Op.add "  " Priority.low Category.personal "" 1001 800 600,
        Op.toggle "1000",
        Op.move "1001" 0 0 240 130 800 600] (by decide)).1⟩

/-- C11 (as stated, refuted): two adds that both read `Date.now() = 1000`, which a
monotonically increasing millisecond clock allows, give two tasks with the same id `"1000"`. -/
theorem task_ids_distinct_counterexample :
    (clockReads [Op.add "a" Priority.low Category.personal "" 1000 800 600,
        Op.add "b" Priority.low Category.personal "" 1000 800 600]).Pairwise
        (fun m n => m ≤ n) ∧
      (runOps [Op.add "a" Priority.low Category.personal "" 1000 800 600,
        Op.add "b" Priority.low Category.personal "" 1000 800 600]).map Task.id
        = ["1000", "1000"] ∧
      ¬ ((runOps [Op.add "a" Priority.low Category.personal "" 1000 800 600,
        Op.add "b" Priority.low Category.personal "" 1000 800 600]).map Task.id).Nodup := by
  decide

end ToDoListApp
